import Mathlib

/-!
Shallow embedding of the response segmentation and code-block classification
engine of the gpt5-dev-agent repository (`pkg/ui/spinner.go`, together with the
preprocessing done by `printResponse` in the CLI before the classifier runs).

String primitives (trim, lower-casing, substring search, line splitting) are
modelled by structural recursion over `String.data` so that every definition is
executable by kernel reduction. The character classes follow Go's
`unicode.IsSpace` and ASCII case folding used by the literals in the source.
-/

/-- Whitespace class of Go's `strings.TrimSpace` (`unicode.IsSpace`). -/
def isGoSpace (c : Char) : Bool :=
  c = ' ' || c = '\t' || c = '\n' || c = '\r' ||
  c.val = 11 || c.val = 12 || c.val = 0x85 || c.val = 0xA0 ||
  c.val = 0x1680 || (0x2000 ≤ c.val && c.val ≤ 0x200A) ||
  c.val = 0x2028 || c.val = 0x2029 || c.val = 0x202F || c.val = 0x205F ||
  c.val = 0x3000

/-- Drop leading whitespace characters. -/
def dropLeadingSpace : List Char → List Char
  | [] => []
  | c :: cs => if isGoSpace c then dropLeadingSpace cs else c :: cs

/-- Go `strings.TrimSpace`: remove leading and trailing whitespace. -/
def trimSpace (s : String) : String :=
  ⟨dropLeadingSpace ((dropLeadingSpace s.data.reverse).reverse)⟩

/-- ASCII case folding for one character (the source only compares against
ASCII literals). -/
def toLowerChar (c : Char) : Char :=
  if 'A' ≤ c ∧ c ≤ 'Z' then Char.ofNat (c.toNat + 32) else c

/-- Go `strings.ToLower` on the ASCII range. -/
def lowerStr (s : String) : String :=
  ⟨s.data.map toLowerChar⟩

/-- Character-list version of Go `strings.HasPrefix`. -/
def startsWithChars : List Char → List Char → Bool
  | _, [] => true
  | [], _ :: _ => false
  | c :: cs, p :: ps => c = p && startsWithChars cs ps

/-- Go `strings.HasPrefix`. -/
def strStartsWith (s pre : String) : Bool :=
  startsWithChars s.data pre.data

/-- Character-list version of Go `strings.Contains`. -/
def containsChars : List Char → List Char → Bool
  | [], p => startsWithChars [] p
  | c :: cs, p => startsWithChars (c :: cs) p || containsChars cs p

/-- Go `strings.Contains`. -/
def strContains (s pat : String) : Bool :=
  containsChars s.data pat.data

/-- Go `strings.Split` with separator `"\n"`, on character lists.
Matches Go semantics: the empty string splits into `[""]`. -/
def splitOnNewline : List Char → List (List Char)
  | [] => [[]]
  | c :: cs =>
    if c = '\n' then [] :: splitOnNewline cs
    else
      match splitOnNewline cs with
      | [] => [[c]]
      | x :: xs => (c :: x) :: xs

/-- Go `strings.Split(text, "\n")`. -/
def splitLines (s : String) : List String :=
  (splitOnNewline s.data).map (fun l => ⟨l⟩)

/-- Go `strings.Join(lines, "\n")`. -/
def joinLines : List String → String
  | [] => ""
  | [l] => l
  | l :: ls => l ++ "\n" ++ joinLines ls

/-- One classified output line: `ResponseLine` from `pkg/ui/spinner.go`. -/
structure ResponseLine where
  Text : String
  IsCode : Bool
  Language : String
deriving DecidableEq, Repr

/-- The fixed language vocabulary of `isLanguageDeclaration` in
`pkg/ui/spinner.go`. -/
def commonLanguages : List String :=
  ["python", "javascript", "java", "go", "rust", "c++", "c", "php",
   "ruby", "swift", "kotlin", "typescript", "html", "css", "sql",
   "bash", "shell", "powershell", "json", "xml", "yaml", "dockerfile",
   "markdown", "text", "plaintext", "output"]

/-- `isLanguageDeclaration` from `pkg/ui/spinner.go`: the trimmed, lower-cased
line must equal one vocabulary entry exactly. -/
def isLanguageDeclaration (line : String) : Bool :=
  commonLanguages.any (fun lang => lowerStr (trimSpace line) = lang)

/-- `isIndentedCodeLine` from `pkg/ui/spinner.go`: four leading spaces or a
leading tab. -/
def isIndentedCodeLine (line : String) : Bool :=
  strStartsWith line "    " || strStartsWith line "\t"

/-- The fixed explanation-marker lexicon of `isExplanationLine` in
`pkg/ui/spinner.go`. -/
def explanationPatterns : List String :=
  ["output:", "hasil:", "contoh:", "example:", "note:", "catatan:",
   "kalau", "jika", "untuk", "ini akan", "kod ini", "awak boleh",
   "saya", "anda", "bila", "apabila", "nak saya", "boleh juga",
   "this will", "this code", "you can", "if you", "when you",
   "1.", "2.", "3.", "4.", "5."]

/-- `isExplanationLine` from `pkg/ui/spinner.go`: substring containment of any
marker anywhere in the lower-cased line (Go `strings.Contains`). -/
def isExplanationLine (line : String) : Bool :=
  explanationPatterns.any (fun pat => strContains (lowerStr line) pat)

/-- The inner lookahead loop of `ProcessResponseWithCodeHighlight`
(`for j := i+1; j < len(lines) && j < i+3; j++`): number of consecutive
`Copy` or `Edit` lines among the next two lines, stopping at the first
non-matching line. This is the value assigned to `skipNext`. -/
def countArtifacts (rest : List String) : Nat :=
  match rest with
  | [] => 0
  | a :: rest2 =>
    if trimSpace a = "Copy" ∨ trimSpace a = "Edit" then
      match rest2 with
      | [] => 1
      | b :: _ => if trimSpace b = "Copy" ∨ trimSpace b = "Edit" then 2 else 1
    else 0

/-- The end-of-code-block test of `ProcessResponseWithCodeHighlight`: inside a
code block, a blank line whose successor is non-blank, not indented, not a
language declaration, and matches the explanation lexicon, closes the block. -/
def endsBlock (inCode : Bool) (line : String) (rest : List String) : Bool :=
  inCode && decide (trimSpace line = "") &&
    match rest with
    | [] => false
    | nxt :: _ =>
      decide (¬ trimSpace nxt = "") && !isIndentedCodeLine nxt &&
        !isLanguageDeclaration (trimSpace nxt) && isExplanationLine (trimSpace nxt)

/-- The scanning loop of `ProcessResponseWithCodeHighlight` in
`pkg/ui/spinner.go`, as a recursion over the remaining lines. The arguments
mirror the loop state `inCodeBlock`, `codeLang`, `skipNext`. A positive skip
counter consumes the line without emitting; a language-declaration line sets
the code state, schedules the Copy/Edit window for skipping and is itself not
emitted; every other line is emitted once, verbatim, with the state as updated
by the end-of-block test. -/
def processLines : List String → Bool → String → Nat → List ResponseLine
  | [], _, _, _ => []
  | line :: rest, inCode, lang, k =>
    match k with
    | Nat.succ k2 => processLines rest inCode lang k2
    | 0 =>
      if isLanguageDeclaration (trimSpace line) then
        processLines rest true (trimSpace line) (countArtifacts rest)
      else if endsBlock inCode line rest then
        ⟨line, false, ""⟩ :: processLines rest false "" 0
      else
        ⟨line, inCode, lang⟩ :: processLines rest inCode lang 0

/-- `ProcessResponseWithCodeHighlight` from `pkg/ui/spinner.go`. -/
def ProcessResponseWithCodeHighlight (text : String) : List ResponseLine :=
  processLines (splitLines text) false "" 0

/-- The preprocessing performed by `printResponse` (CLI) before the classifier
runs: trim surrounding whitespace; if the trimmed text starts with the literal
prefix `Thought for` and contains more than one line, drop the first line. -/
def stripThoughtPreamble (response : String) : String :=
  let r := trimSpace response
  if strStartsWith r "Thought for" then
    let lines := splitLines r
    if lines.length > 1 then joinLines lines.tail else r
  else r

/-- The full response pipeline of `printResponse`: preprocessing followed by
classification. -/
def printResponseSegments (response : String) : List ResponseLine :=
  ProcessResponseWithCodeHighlight (stripThoughtPreamble response)

/-- Ghost counter: the number of input lines that `processLines` consumes
without emitting a segment, namely a language-declaration trigger line and the
`Copy`/`Edit` lines in its skip window. It mirrors the skip structure of the
scan loop and depends only on the skip counter, not on the code state. -/
def excludedLines : List String → Nat → Nat
  | [], _ => 0
  | line :: rest, k =>
    match k with
    | Nat.succ k2 => 1 + excludedLines rest k2
    | 0 =>
      if isLanguageDeclaration (trimSpace line) then
        1 + excludedLines rest (countArtifacts rest)
      else excludedLines rest 0

/-- The CLI's chat loop invokes the classifier once per assistant reply; the
loop state of one invocation is created fresh inside the call and never
escapes it. `runSession` models such a sequence of invocations. -/
def runSession : List String → List (List ResponseLine)
  | [] => []
  | r :: rs => ProcessResponseWithCodeHighlight r :: runSession rs

theorem processLines_cons_zero (line : String) (rest : List String)
    (inCode : Bool) (lang : String) :
    processLines (line :: rest) inCode lang 0 =
      if isLanguageDeclaration (trimSpace line) then
        processLines rest true (trimSpace line) (countArtifacts rest)
      else if endsBlock inCode line rest then
        ⟨line, false, ""⟩ :: processLines rest false "" 0
      else
        ⟨line, inCode, lang⟩ :: processLines rest inCode lang 0 := rfl

theorem processLines_cons_succ (line : String) (rest : List String)
    (inCode : Bool) (lang : String) (k : Nat) :
    processLines (line :: rest) inCode lang (k + 1) =
      processLines rest inCode lang k := rfl

theorem excludedLines_cons_zero (line : String) (rest : List String) :
    excludedLines (line :: rest) 0 =
      if isLanguageDeclaration (trimSpace line) then
        1 + excludedLines rest (countArtifacts rest)
      else excludedLines rest 0 := rfl

theorem excludedLines_cons_succ (line : String) (rest : List String) (k : Nat) :
    excludedLines (line :: rest) (k + 1) = 1 + excludedLines rest k := rfl

/-- A positive skip counter consumes exactly the next `k` lines without
emitting anything: the scan continues as if those lines had been dropped. -/
theorem processLines_skipDrop (lines : List String) :
    ∀ (inCode : Bool) (lang : String) (k : Nat),
      processLines lines inCode lang k = processLines (lines.drop k) inCode lang 0 := by
  induction lines with
  | nil =>
    intro inCode lang k
    rw [List.drop_nil]
    cases k <;> rfl
  | cons line rest ih =>
    intro inCode lang k
    cases k with
    | zero => rfl
    | succ k2 => exact ih inCode lang k2

/-- Step equation for a bare-language trigger line: the line is consumed, the
code state opens with the trimmed language word, and the Copy/Edit window is
skipped. -/
theorem processLines_langDecl (line : String) (rest : List String) (inCode : Bool)
    (lang : String) (h : isLanguageDeclaration (trimSpace line) = true) :
    processLines (line :: rest) inCode lang 0
      = processLines (rest.drop (countArtifacts rest)) true (trimSpace line) 0 := by
  rw [processLines_cons_zero, if_pos h, processLines_skipDrop]

/-- Step equation for a non-trigger line at skip zero: one verbatim segment is
emitted, with the state as updated by the end-of-block test. -/
theorem processLines_emitStep (line : String) (rest : List String) (inCode : Bool)
    (lang : String) (h : isLanguageDeclaration (trimSpace line) = false) :
    processLines (line :: rest) inCode lang 0
      = (if endsBlock inCode line rest then
           (⟨line, false, ""⟩ : ResponseLine) :: processLines rest false "" 0
         else (⟨line, inCode, lang⟩ : ResponseLine) :: processLines rest inCode lang 0) := by
  rw [processLines_cons_zero, if_neg (by simp [h])]

/-- Conservation: every input line is either emitted as exactly one segment or
counted by `excludedLines`. -/
theorem processLines_length (lines : List String) :
    ∀ (inCode : Bool) (lang : String) (k : Nat),
      (processLines lines inCode lang k).length + excludedLines lines k = lines.length := by
  induction lines with
  | nil => intro _ _ _; rfl
  | cons line rest ih =>
    intro inCode lang k
    cases k with
    | succ k2 =>
      rw [processLines_cons_succ, excludedLines_cons_succ]
      have := ih inCode lang k2
      simp only [List.length_cons]
      omega
    | zero =>
      by_cases h : isLanguageDeclaration (trimSpace line) = true
      · rw [processLines_cons_zero, if_pos h, excludedLines_cons_zero, if_pos h]
        have := ih true (trimSpace line) (countArtifacts rest)
        simp only [List.length_cons]
        omega
      · have hf : isLanguageDeclaration (trimSpace line) = false := by
          simpa using h
        rw [processLines_emitStep line rest inCode lang hf]
        rw [excludedLines_cons_zero, if_neg h]
        by_cases hb : endsBlock inCode line rest = true
        · rw [if_pos hb]
          have := ih false "" 0
          simp only [List.length_cons]
          omega
        · rw [if_neg hb]
          have := ih inCode lang 0
          simp only [List.length_cons]
          omega

/-- A line whose trimmed text is `Copy` or `Edit`, reached with skip counter
zero (that is, not inside a trigger's skip window), is emitted normally with
the prevailing state. -/
theorem processLines_copyEdit (line : String) (rest : List String) (inCode : Bool)
    (lang : String) (h : trimSpace line = "Copy" ∨ trimSpace line = "Edit") :
    processLines (line :: rest) inCode lang 0
      = ⟨line, inCode, lang⟩ :: processLines rest inCode lang 0 := by
  have h1 : isLanguageDeclaration (trimSpace line) = false := by
    rcases h with h | h <;> rw [h] <;> decide
  have h2 : endsBlock inCode line rest = false := by
    rcases h with h | h <;> simp [endsBlock, h]
  rw [processLines_emitStep line rest inCode lang h1, if_neg (by simp [h2])]

theorem countArtifacts_le_two (rest : List String) : countArtifacts rest ≤ 2 := by
  cases rest with
  | nil => simp [countArtifacts]
  | cons a rest2 =>
    cases rest2 with
    | nil =>
      simp only [countArtifacts]
      split <;> omega
    | cons b t =>
      simp only [countArtifacts]
      split
      · split <;> omega
      · omega

/-- Every line counted into the skip window is a `Copy` or `Edit` line. -/
theorem countArtifacts_copyEdit (rest : List String) (j : Nat)
    (hj : j < countArtifacts rest) :
    ∃ a, rest.get? j = some a ∧ (trimSpace a = "Copy" ∨ trimSpace a = "Edit") := by
  cases rest with
  | nil => simp [countArtifacts] at hj
  | cons a rest2 =>
    by_cases h1 : trimSpace a = "Copy" ∨ trimSpace a = "Edit"
    · cases rest2 with
      | nil =>
        have hc : countArtifacts [a] = 1 := by simp [countArtifacts, h1]
        rw [hc] at hj
        have hj0 : j = 0 := by omega
        subst hj0
        exact ⟨a, rfl, h1⟩
      | cons b t =>
        by_cases h2 : trimSpace b = "Copy" ∨ trimSpace b = "Edit"
        · have hc : countArtifacts (a :: b :: t) = 2 := by
            simp [countArtifacts, h1, h2]
          rw [hc] at hj
          match j, hj with
          | 0, _ => exact ⟨a, rfl, h1⟩
          | 1, _ => exact ⟨b, rfl, h2⟩
        · have hc : countArtifacts (a :: b :: t) = 1 := by
            simp [countArtifacts, h1, h2]
          rw [hc] at hj
          have hj0 : j = 0 := by omega
          subst hj0
          exact ⟨a, rfl, h1⟩
    · have hc : countArtifacts (a :: rest2) = 0 := by
        cases rest2 <;> simp [countArtifacts, h1]
      omega

/-- Artifact scanning stops at the first non-matching line. -/
theorem countArtifacts_stop (a : String) (rest : List String)
    (h : ¬ (trimSpace a = "Copy" ∨ trimSpace a = "Edit")) :
    countArtifacts (a :: rest) = 0 := by
  cases rest <;> simp [countArtifacts, h]

theorem countArtifacts_stopSecond (a b : String) (rest : List String)
    (h1 : trimSpace a = "Copy" ∨ trimSpace a = "Edit")
    (h2 : ¬ (trimSpace b = "Copy" ∨ trimSpace b = "Edit")) :
    countArtifacts (a :: b :: rest) = 1 := by
  simp [countArtifacts, h1, h2]

/-- C1: the specification states that an explicit fence opener followed by a
fence-only closer marks a code block, with neither fence line emitted and the
enclosed lines classified as code carrying the opener's tag. The classifier
never consults the fence helpers (`parseFenceStart` and `isFenceEnd` are
defined in `pkg/ui/spinner.go` but unused), so on the specification's own
example all four lines, including both fence lines, are emitted as prose. -/
theorem c1_fence_input_all_prose :
    ProcessResponseWithCodeHighlight "```python\nprint(1)\n```\nDone" =
      [⟨"```python", false, ""⟩, ⟨"print(1)", false, ""⟩,
       ⟨"```", false, ""⟩, ⟨"Done", false, ""⟩] := by decide

/-- C2: the specification states that an unterminated explicit fence classifies
every line after the opener to end-of-input as code. Since fences are never
recognized, the opener line is emitted and nothing becomes code. -/
theorem c2_unterminated_fence_all_prose :
    ProcessResponseWithCodeHighlight "```go\nfunc main()\x7b\x7d" =
      [⟨"```go", false, ""⟩, ⟨"func main()\x7b\x7d", false, ""⟩] := by decide

/-- C3 counterexample: in the scenario input, no emitted segment has empty text
together with code state; the blank line is emitted after the explanation
heuristic has already cleared the code state, refuting the claim that the
blank line carries `isCode` true. -/
theorem c3_blank_line_counterexample :
    ¬ ∃ seg ∈ ProcessResponseWithCodeHighlight
        "python\nCopy\nEdit\ndef f():\n    return 1\n\nThis will return 1.",
      seg.Text = "" ∧ seg.IsCode = true := by decide

/-- C3 amended: on the scenario input, `Copy` and `Edit` are excluded,
`def f():` and `    return 1` are code with language `python`, the blank line
is emitted as an empty-text segment with `isCode` false (the explanation
heuristic fires at the blank line itself, clearing the state before the blank
line is emitted), and the final line is prose. -/
theorem c3_scenario_segments :
    ProcessResponseWithCodeHighlight
        "python\nCopy\nEdit\ndef f():\n    return 1\n\nThis will return 1." =
      [⟨"def f():", true, "python"⟩, ⟨"    return 1", true, "python"⟩,
       ⟨"", false, ""⟩, ⟨"This will return 1.", false, ""⟩] := by decide

/-- C4 counterexample: the line `python` opens a block, yet the output for
`python\nx = 1` contains no segment whose text is `python` - the trigger line
is consumed, refuting the claim that a line opening a block is itself emitted
with the newly-opened state. -/
theorem c4_trigger_not_emitted_counterexample :
    isLanguageDeclaration "python" = true ∧
    ProcessResponseWithCodeHighlight "python\nx = 1" = [⟨"x = 1", true, "python"⟩] ∧
    ¬ ∃ seg ∈ ProcessResponseWithCodeHighlight "python\nx = 1", seg.Text = "python" := by
  decide

/-- C4 amended: a bare-language trigger line is consumed as a marker and not
emitted (scanning continues after its Copy/Edit window with the code state
open); every other surviving line is emitted as exactly one verbatim segment
carrying the state as it applies to that line; and a fence-shaped closing line
is not recognized as a marker - it is emitted like any ordinary line. -/
theorem c4_emission_discipline :
    (∀ (line : String) (rest : List String) (inCode : Bool) (lang : String),
        isLanguageDeclaration (trimSpace line) = true →
        processLines (line :: rest) inCode lang 0
          = processLines (rest.drop (countArtifacts rest)) true (trimSpace line) 0) ∧
    (∀ (line : String) (rest : List String) (inCode : Bool) (lang : String),
        isLanguageDeclaration (trimSpace line) = false →
        ∃ c2 l2, processLines (line :: rest) inCode lang 0
          = ⟨line, c2, l2⟩ :: processLines rest c2 l2 0) ∧
    ProcessResponseWithCodeHighlight "```\nx" =
      [⟨"```", false, ""⟩, ⟨"x", false, ""⟩] := by
  refine ⟨fun line rest inCode lang h => processLines_langDecl line rest inCode lang h,
          ?_, by decide⟩
  intro line rest inCode lang h
  by_cases hb : endsBlock inCode line rest = true
  · exact ⟨false, "", by rw [processLines_emitStep line rest inCode lang h, if_pos hb]⟩
  · exact ⟨inCode, lang, by rw [processLines_emitStep line rest inCode lang h, if_neg hb]⟩

theorem c4_emission_discipline_witness :
    processLines ["python", "x = 1"] false "" 0
      = processLines (["x = 1"].drop (countArtifacts ["x = 1"])) true (trimSpace "python") 0 ∧
    ∃ c2 l2, processLines ["hello"] false "" 0
      = ⟨"hello", c2, l2⟩ :: processLines [] c2 l2 0 :=
  ⟨c4_emission_discipline.1 "python" ["x = 1"] false "" (by decide),
   c4_emission_discipline.2.1 "hello" [] false "" (by decide)⟩

/-- C5 counterexample: an input consisting only of the artifact line is not
stripped at all (the removal requires a second line), and the pipeline yields
one segment rather than zero. -/
theorem c5_artifact_only_counterexample :
    stripThoughtPreamble "Thought for 4s" = "Thought for 4s" ∧
    printResponseSegments "Thought for 4s" ≠ [] := by decide

/-- C5 amended: the live preprocessor trims surrounding whitespace and removes
the entire first line exactly when the trimmed text starts with the literal
prefix `Thought for` (no digit or trailing-s requirement) and at least one
further line exists; when the trimmed text does not carry that prefix, or
consists of a single line, nothing is removed; `Thought for 4s\nHello` yields
the single prose segment `Hello`, while the artifact-only input is left
unchanged and yields one prose segment carrying the artifact text. -/
theorem c5_preamble_strip :
    (∀ r : String, strStartsWith (trimSpace r) "Thought for" = false →
        stripThoughtPreamble r = trimSpace r) ∧
    (∀ r : String, (splitLines (trimSpace r)).length ≤ 1 →
        stripThoughtPreamble r = trimSpace r) ∧
    printResponseSegments "Thought for 4s\nHello" = [⟨"Hello", false, ""⟩] ∧
    printResponseSegments "Thought for 4s" = [⟨"Thought for 4s", false, ""⟩] := by
  refine ⟨?_, ?_, by decide, by decide⟩
  · intro r h
    simp only [stripThoughtPreamble]
    rw [if_neg (by simp [h])]
  · intro r h
    simp only [stripThoughtPreamble]
    by_cases hs : strStartsWith (trimSpace r) "Thought for" = true
    · rw [if_pos hs, if_neg (by omega)]
    · rw [if_neg hs]

theorem c5_preamble_strip_witness :
    stripThoughtPreamble "Hello" = trimSpace "Hello" ∧
    stripThoughtPreamble "Hi" = trimSpace "Hi" :=
  ⟨c5_preamble_strip.1 "Hello" (by decide),
   c5_preamble_strip.2.1 "Hi" (by decide)⟩

/-- C6 counterexample: the empty-string input does not yield zero segments. -/
theorem c6_empty_input_counterexample :
    ProcessResponseWithCodeHighlight "" ≠ [] := by decide

/-- C6 amended: the classifier is total - every input yields a finite segment
sequence with at most one segment per input line - but the empty-string input
yields exactly one segment, the empty prose segment, because splitting the
empty string produces one empty line. -/
theorem c6_total_one_empty_segment :
    (∀ text : String,
        (ProcessResponseWithCodeHighlight text).length ≤ (splitLines text).length) ∧
    ProcessResponseWithCodeHighlight "" = [⟨"", false, ""⟩] := by
  refine ⟨fun text => ?_, by decide⟩
  exact Nat.le.intro (processLines_length (splitLines text) false "" 0)

/-- C7: artifact exclusion happens only through the skip window opened by a
bare-language trigger: the window inspects at most the next two lines, every
line it counts is a trimmed `Copy` or `Edit` line, inspection stops at the
first non-matching line (whether in first or second position), the excluded
window produces no segments (scanning resumes past it), and a `Copy` or `Edit`
line reached outside any skip window is emitted as a normal segment. -/
theorem c7_artifact_filter :
    (∀ rest : List String, countArtifacts rest ≤ 2) ∧
    (∀ (rest : List String) (j : Nat), j < countArtifacts rest →
        ∃ a, rest.get? j = some a ∧ (trimSpace a = "Copy" ∨ trimSpace a = "Edit")) ∧
    (∀ (a : String) (rest : List String),
        ¬ (trimSpace a = "Copy" ∨ trimSpace a = "Edit") →
        countArtifacts (a :: rest) = 0) ∧
    (∀ (a b : String) (rest : List String),
        (trimSpace a = "Copy" ∨ trimSpace a = "Edit") →
        ¬ (trimSpace b = "Copy" ∨ trimSpace b = "Edit") →
        countArtifacts (a :: b :: rest) = 1) ∧
    (∀ (line : String) (rest : List String) (inCode : Bool) (lang : String),
        isLanguageDeclaration (trimSpace line) = true →
        processLines (line :: rest) inCode lang 0
          = processLines (rest.drop (countArtifacts rest)) true (trimSpace line) 0) ∧
    (∀ (line : String) (rest : List String) (inCode : Bool) (lang : String),
        (trimSpace line = "Copy" ∨ trimSpace line = "Edit") →
        processLines (line :: rest) inCode lang 0
          = ⟨line, inCode, lang⟩ :: processLines rest inCode lang 0) :=
  ⟨countArtifacts_le_two, countArtifacts_copyEdit, countArtifacts_stop,
   countArtifacts_stopSecond, processLines_langDecl, processLines_copyEdit⟩

theorem c7_artifact_filter_witness :
    countArtifacts ["Copy", "x", "Edit"] = 1 ∧
    processLines ["python", "Copy", "x"] false "" 0
      = processLines (["Copy", "x"].drop (countArtifacts ["Copy", "x"])) true
          (trimSpace "python") 0 ∧
    processLines ["Copy"] true "python" 0
      = ⟨"Copy", true, "python"⟩ :: processLines [] true "python" 0 :=
  ⟨c7_artifact_filter.2.2.2.1 "Copy" "x" ["Edit"] (by decide) (by decide),
   c7_artifact_filter.2.2.2.2.1 "python" ["Copy", "x"] false "" (by decide),
   c7_artifact_filter.2.2.2.2.2 "Copy" [] true "python" (by decide)⟩

/-- C8: for every input, the number of emitted segments plus the number of
lines consumed without emission (the bare-language trigger lines and the
Copy/Edit lines in their skip windows, counted by `excludedLines`) equals the
number of lines of the input - stated both for the classifier alone and for
the full pipeline on the preprocessed text. -/
theorem c8_segment_count_conservation :
    (∀ text : String,
        (ProcessResponseWithCodeHighlight text).length + excludedLines (splitLines text) 0
          = (splitLines text).length) ∧
    (∀ response : String,
        (printResponseSegments response).length
            + excludedLines (splitLines (stripThoughtPreamble response)) 0
          = (splitLines (stripThoughtPreamble response)).length) :=
  ⟨fun text => processLines_length (splitLines text) false "" 0,
   fun response => processLines_length (splitLines (stripThoughtPreamble response)) false "" 0⟩

/-- C9: classification is a pure function of its input string. In a session of
successive invocations, the segments produced for one reply are exactly
`ProcessResponseWithCodeHighlight` of that reply, independent of whatever was
classified before or after - no state carries across calls. -/
theorem c9_classification_pure :
    ∀ (pre post : List String) (s : String),
      runSession (pre ++ s :: post)
        = runSession pre ++ ProcessResponseWithCodeHighlight s :: runSession post := by
  intro pre post s
  induction pre with
  | nil => rfl
  | cons a t ih => simp [runSession, ih]

/-- C10: explanation-marker matching is by substring containment anywhere in
the lower-cased line, not by prefix: a line is an explanation line exactly
when it contains some marker of the fixed lexicon; the line
`run version 1.2 of the tool` matches (it contains `1.`) although no marker is
a prefix of it; and inside an implicitly-opened code block, a blank line
followed by that line closes the block. -/
theorem c10_explanation_substring_matching :
    (∀ line : String,
        isExplanationLine line = true ↔
          ∃ pat ∈ explanationPatterns, strContains (lowerStr line) pat = true) ∧
    isExplanationLine "run version 1.2 of the tool" = true ∧
    (∀ pat ∈ explanationPatterns,
        strStartsWith (lowerStr "run version 1.2 of the tool") pat = false) ∧
    ProcessResponseWithCodeHighlight "python\nx = 1\n\nrun version 1.2 of the tool" =
      [⟨"x = 1", true, "python"⟩, ⟨"", false, ""⟩,
       ⟨"run version 1.2 of the tool", false, ""⟩] := by
  refine ⟨fun line => ?_, by decide, by decide, by decide⟩
  simp [isExplanationLine, List.any_eq_true]

theorem c10_explanation_substring_matching_witness :
    isExplanationLine "you can use it" = true ∧
    strStartsWith (lowerStr "run version 1.2 of the tool") "kalau" = false :=
  ⟨(c10_explanation_substring_matching.1 "you can use it").mpr
     ⟨"you can", by decide, by decide⟩,
   c10_explanation_substring_matching.2.2.1 "kalau" (by decide)⟩
